import Mathlib

/-!
# imap2json: thread flattening, message normalisation and conversation assembly

A shallow embedding of `imap2json.go`.

* `dumplist`, `dumpl` (source lines 49-83) flatten the nested `UID THREAD` answer.
* `getMsg` (lines 300-395) turns one raw message into a `Msg`.
* `buildConversation`, `mainLoop` (lines 240-281) are the conversation loop of `main`.

Conventions.

* `int` is the 64-bit integer of the usual build targets, so `int(t)` for a `uint32` is exact.
* A Go `map[string]T` is an association list with distinct keys (`AList`); iteration order, which
  Go leaves unspecified, is the order of the list and no statement below depends on it.
* The file system is read through `Env`; every read of `raw/<id>.txt` happens after the fetch
  phase, and the build phase only writes below `c/`, so reads do not depend on earlier writes.
* Functions of packages that are not part of the repository (`net/mail`, `go.enmime`, `time`)
  are the fields of `Lib`; `getMsg` and the loop of `main` are stated for an arbitrary `Lib`.
  `refLib` is one such library, used to evaluate the definitions on concrete messages.
* `crypto/sha1` is a fixed function; SHA-1 is written out (`sha1Sum`).
-/

namespace Imap2json

/-! ## Data model -/

/-- The bytes of a file or of a message. -/
abbrev Bytes := List UInt8

/-- An `imap.Field` (an `interface{}`): the three cases the type switches of `dumplist` and
`dumpl` distinguish. `other` stands for every dynamic type that is neither `[]imap.Field`
nor `uint32` (a string, `nil`, ...), and carries what `%T` would print. -/
inductive Field where
  | list (t : List Field)
  | uint32 (t : UInt32)
  | other (typeName : String)

/-- A `*mail.Address`. -/
structure MailAddress where
  Name : String
  Address : String
deriving DecidableEq, Repr

/-- The `[]string` stored under a key of a `mail.Header`. The header reader creates an entry by
appending a value to it, and the one assignment in `getMsg` stores a one-element slice, so such a
slice always has a first element `v[0]`. -/
structure Values where
  first : String
  rest : List String
deriving DecidableEq, Repr

/-- A `mail.Header`, that is a `map[string][]string`. -/
abbrev MailHeader := AList (fun _ : String => Values)

/-- A `*mail.Message`: the header and what reading `Body` to the end yields. -/
structure MailMessage where
  Header : MailHeader
  Body : String
deriving DecidableEq

/-- The part of an `enmime.MIMEBody` that `getMsg` looks at. -/
structure MIMEBody where
  Text : String
  GetHeader : String → String

/-- The dynamic values stored in `Msg.Header` (a `map[string]interface{}`): the raw `[]string`
copied from the mail header, or the `[]*mail.Address` of a parsed address list. -/
inductive HeaderValue where
  | strings (v : Values)
  | addrs (a : List MailAddress)
deriving DecidableEq, Repr

/-- The type of `Msg.Header` when it is not `nil`. -/
abbrev HeaderMap := AList (fun _ : String => HeaderValue)

/-- The struct `Msg`. `Header = none` is the `nil` map. -/
structure Msg where
  Header : Option HeaderMap
  UID : Int
  Date : String
  Body : String
deriving DecidableEq

/-- The struct `Conversation`. -/
structure Conversation where
  Id : String
  Count : Int
  Msgs : List Msg
deriving DecidableEq

/-- The wall clock reading and the zone offset (seconds east of UTC) of a `time.Time`. -/
structure Time where
  year : Nat
  month : Nat
  day : Nat
  hour : Nat
  min : Nat
  sec : Nat
  offset : Int
deriving DecidableEq, Repr

/-- The library functions called by `getMsg`, as parameters:
`mail.ReadMessage` (`none` is the `nil` message), `enmime.IsMultipartMessage`,
`enmime.ParseMIMEBody` (the error carries `err.Error()`), `mail.Header.AddressList`,
`time.Parse` and `Time.Format`. -/
structure Lib where
  ReadMessage : Bytes → Option MailMessage
  IsMultipartMessage : MailMessage → Bool
  ParseMIMEBody : MailMessage → Except String MIMEBody
  AddressList : MailHeader → String → Except String (List MailAddress)
  timeParse : String → String → Option Time
  timeFormat : Time → String → String

/-- The file system as the build phase sees it: `ioutil.ReadFile` by path, and whether
`ioutil.WriteFile` to a path succeeds (the error otherwise). -/
structure Env where
  ReadFile : String → Except String Bytes
  WriteFile : String → Except String Unit

/-- How a run of the conversation loop can abort: `panic(err)` with an error of the file system,
or the run-time panic of an index expression. -/
inductive Panic where
  | err (e : String)
  | indexOutOfRange
deriving DecidableEq, Repr

/-- Equality of results is decidable when equality of errors and of values is. -/
instance instDecidableEqExcept {ε α : Type} [DecidableEq ε] [DecidableEq α] :
    DecidableEq (Except ε α)
  | .ok a, .ok b => if h : a = b then isTrue (by rw [h]) else isFalse (fun e => h (by cases e; rfl))
  | .error a, .error b =>
    if h : a = b then isTrue (by rw [h]) else isFalse (fun e => h (by cases e; rfl))
  | .ok _, .error _ => isFalse (fun e => by cases e)
  | .error _, .ok _ => isFalse (fun e => by cases e)

/-! ## Thread flattening (lines 48-83) -/

mutual
/-- The function `dumplist`: the leaves of `x`, depth first, left to right. -/
def dumplist : Field → List Int
  | .list t => dumplistLoop [] t
  | .uint32 t => [] ++ [Int.ofNat t.toNat]
  | .other _ => []
/-- The `for _, v := range t` loop of `dumplist`, `l` being the slice built so far. -/
def dumplistLoop (l : List Int) : List Field → List Int
  | [] => l
  | v :: rest => dumplistLoop (l ++ dumplist v) rest
end

/-- The `for _, v := range t` loop of `dumpl`, `l` being the slice built so far. -/
def dumplLoop (l : List (List Int)) : List Field → List (List Int)
  | [] => l
  | v :: rest => dumplLoop (l ++ [dumplist v]) rest

/-- The function `dumpl`: one flattened sequence for each element of the root sequence. -/
def dumpl : Field → List (List Int)
  | .list t => dumplLoop [] t
  | _ => []

/-! ## Strings -/

/-- The conversion `string(k)` of an `int`: the UTF-8 text of the single code point `k`, and
`"�"` when `k` is not a valid code point. -/
def runeString (k : Int) : String :=
  if 0 ≤ k ∧ Nat.isValidChar k.toNat then String.singleton (Char.ofNat k.toNat)
  else String.singleton (Char.ofNat 0xFFFD)

/-- The path `fmt.Sprintf("raw/%d.txt", id)`. -/
def rawPath (id : Int) : String := "raw/" ++ toString id ++ ".txt"

/-- The test `strings.HasPrefix(s, pre)`. -/
def HasPrefix (s pre : String) : Bool := pre.data.isPrefixOf s.data

/-- The layout `time.RFC1123Z`. -/
def RFC1123Z : String := "Mon, 02 Jan 2006 15:04:05 -0700"

/-- The layout `time.RFC3339`. -/
def RFC3339 : String := "2006-01-02T15:04:05Z07:00"

/-! ## The conversation identifier: SHA-1 and `%x` (lines 250-252) -/

/-- Rotate the 32-bit word `x` left by `n` bits. -/
def rotl32 (x n : Nat) : Nat := ((x <<< n) ||| (x >>> (32 - n))) % 2 ^ 32

/-- The four bytes of a 32-bit word, most significant first. -/
def be32 (w : Nat) : List Nat := [w / 2 ^ 24 % 256, w / 2 ^ 16 % 256, w / 2 ^ 8 % 256, w % 256]

/-- The five chaining words of SHA-1. -/
structure Sha1State where
  h0 : Nat
  h1 : Nat
  h2 : Nat
  h3 : Nat
  h4 : Nat

/-- The initial chaining value. -/
def sha1Init : Sha1State := ⟨0x67452301, 0xEFCDAB89, 0x98BADCFE, 0x10325476, 0xC3D2E1F0⟩

/-- The padded message: a `0x80` byte, zero bytes up to 56 modulo 64, the bit length on 8 bytes. -/
def sha1Pad (msg : List Nat) : List Nat :=
  msg ++ [0x80] ++ List.replicate ((119 - msg.length % 64) % 64) 0
    ++ be32 (8 * msg.length / 2 ^ 32) ++ be32 (8 * msg.length)

/-- The first `n` big-endian 32-bit words of a byte list. -/
def sha1Words : Nat → List Nat → List Nat
  | 0, _ => []
  | n + 1, a :: b :: c :: d :: rest => (((a * 256 + b) * 256 + c) * 256 + d) :: sha1Words n rest
  | _ + 1, _ => []

/-- The message schedule extended by `n` words. -/
def sha1Schedule : Nat → List Nat → List Nat
  | 0, w => w
  | n + 1, w =>
    let i := w.length
    sha1Schedule n (w ++ [rotl32
      (w.getD (i - 3) 0 ^^^ w.getD (i - 8) 0 ^^^ w.getD (i - 14) 0 ^^^ w.getD (i - 16) 0) 1])

/-- Round `i` of the compression function on the schedule word `wi`. -/
def sha1Round (i : Nat) (s : Sha1State) (wi : Nat) : Sha1State :=
  let a := s.h0; let b := s.h1; let c := s.h2; let d := s.h3; let e := s.h4
  let f := if i < 20 then (b &&& c) ||| ((b ^^^ (2 ^ 32 - 1)) &&& d)
    else if i < 40 then b ^^^ c ^^^ d
    else if i < 60 then (b &&& c) ||| (b &&& d) ||| (c &&& d)
    else b ^^^ c ^^^ d
  let k := if i < 20 then 0x5A827999 else if i < 40 then 0x6ED9EBA1
    else if i < 60 then 0x8F1BBCDC else 0xCA62C1D6
  ⟨(rotl32 a 5 + f + e + k + wi) % 2 ^ 32, a, rotl32 b 30, c, d⟩

/-- The rounds over the remaining schedule words, `i` being the index of the next round. -/
def sha1Rounds : Nat → List Nat → Sha1State → Sha1State
  | _, [], s => s
  | i, wi :: w, s => sha1Rounds (i + 1) w (sha1Round i s wi)

/-- The compression of one 64-byte block. -/
def sha1Block (s : Sha1State) (block : List Nat) : Sha1State :=
  let r := sha1Rounds 0 (sha1Schedule 64 (sha1Words 16 block)) s
  ⟨(s.h0 + r.h0) % 2 ^ 32, (s.h1 + r.h1) % 2 ^ 32, (s.h2 + r.h2) % 2 ^ 32,
    (s.h3 + r.h3) % 2 ^ 32, (s.h4 + r.h4) % 2 ^ 32⟩

/-- The compression of the first `n` blocks of `data`. -/
def sha1Blocks : Nat → List Nat → Sha1State → Sha1State
  | 0, _, s => s
  | n + 1, data, s => sha1Blocks n (data.drop 64) (sha1Block s (data.take 64))

/-- Modelled from the spec: `crypto/sha1` is a package outside the repository; the
"cryptographic content hash" of the first message is taken to be SHA-1 as standardised
(FIPS 180), which is what `sha1.New()`, `h.Write(entiremsg)` and `h.Sum(nil)` compute: the
digest of `msg` as its 20 bytes. -/
def sha1Sum (msg : Bytes) : List Nat :=
  let data := sha1Pad (msg.map UInt8.toNat)
  let s := sha1Blocks (data.length / 64) data sha1Init
  be32 s.h0 ++ be32 s.h1 ++ be32 s.h2 ++ be32 s.h3 ++ be32 s.h4

/-- The lower-case hexadecimal digit of `n < 16`. -/
def hexDigit (n : Nat) : Char := if n < 10 then Char.ofNat (48 + n) else Char.ofNat (87 + n)

/-- The two hexadecimal digits of one byte. -/
def hexByte (x : Nat) : List Char := [hexDigit (x / 16 % 16), hexDigit (x % 16)]

/-- The text `fmt.Sprintf("%x", b)` of a byte slice: two lower-case digits for each byte. -/
def hexString (b : List Nat) : String := String.mk (b.flatMap hexByte)

/-! ## Message normalisation: `getMsg` (lines 300-395) -/

/-- The header names removed by the `delete` statements of lines 325-356, in source order. -/
def denylist : List String :=
  ["Content-Disposition", "Content-Transfer-Encoding", "Content-Type", "Delivered-To",
   "Dkim-Signature", "In-Reply-To", "List-Archive", "List-Help", "List-Id", "List-Post",
   "List-Subscribe", "List-Unsubscribe", "Message-Id", "Mime-Version", "Precedence",
   "Received", "References", "Reply-To", "Resent-Cc", "Resent-Date", "Resent-From",
   "Resent-Message-Id", "Resent-To", "Return-Path", "Sender", "Thread-Index", "Thread-Topic",
   "User-Agent", "Resent-Sender", "Accept-Language", "Content-Language", "Errors-To"]

/-- The loop of lines 357-361: every key of the header that starts with `X-` is deleted. The
keys visited are those of the map when the loop starts; deleting the key being visited does
not hide any other key from the iteration. -/
def deleteXHeaders (h : MailHeader) : MailHeader :=
  h.keys.foldl (fun h key => if HasPrefix key "X-" then h.erase key else h) h

/-- Lines 324-361: the header after the pruning statements. -/
def pruneHeaders (h : MailHeader) : MailHeader :=
  deleteXHeaders (denylist.foldl (fun h key => h.erase key) h)

/-- The loop of lines 365-371 over the pruned header: the value of `m.Date` and of `m.Header`
after it, from their values before it. -/
def copyHeaders (h : MailHeader) (date : String) (hdr : HeaderMap) : String × HeaderMap :=
  h.foldl (fun acc k v => if k = "Date" then (v.first, acc.2)
    else (acc.1, acc.2.insert k (HeaderValue.strings v))) (date, hdr)

/-- The loop of lines 384-391: for `To`, `From` and `CC`, in this order, the parsed address list
is stored under that name; when parsing fails the iteration is skipped (`continue`). -/
def addressHeaders (lib : Lib) (h : MailHeader) (hdr : HeaderMap) : HeaderMap :=
  ["To", "From", "CC"].foldl (fun hdr a =>
    match lib.AddressList h a with
    | .error _ => hdr
    | .ok addrs => hdr.insert a (HeaderValue.addrs addrs)) hdr

/-- The zero value of `Msg`, which the named result `m` of `getMsg` starts from. -/
def zeroMsg : Msg := { Header := none, UID := 0, Date := "", Body := "" }

/-- Lines 308-321: the body of the message, and the mail header after the `Subject` of a
successfully parsed multi-part message has been overwritten. -/
def readBody (lib : Lib) (msg : MailMessage) (m : Msg) : Msg × MailHeader :=
  if lib.IsMultipartMessage msg then
    match lib.ParseMIMEBody msg with
    | .error err => ({ m with Body := err }, msg.Header)
    | .ok mime =>
      ({ m with Body := mime.Text }, msg.Header.insert "Subject" ⟨mime.GetHeader "Subject", []⟩)
  else ({ m with Body := msg.Body }, msg.Header)

/-- The function `getMsg`. The result is `.error err` where the source returns a non-nil error
(the raw file cannot be read) and `.ok m` where it returns `m, nil`. -/
def getMsg (lib : Lib) (env : Env) (id : Int) : Except String Msg :=
  let m := zeroMsg
  match env.ReadFile (rawPath id) with
  | .error err => .error err
  | .ok entiremsg =>
    match lib.ReadMessage entiremsg with
    | none => .ok m
    | some msg =>
      -- lines 308-322
      let mh := readBody lib msg m
      let m := { mh.1 with UID := id }
      -- lines 324-361
      let header := pruneHeaders mh.2
      -- lines 363-371
      let dh := copyHeaders header m.Date ∅
      let m := { m with Date := dh.1 }
      -- lines 373-381
      let m := match lib.timeParse RFC1123Z m.Date with
        | some t => { m with Date := lib.timeFormat t RFC3339 }
        | none => m
      -- lines 384-391
      .ok { m with Header := some (addressHeaders lib header dh.2) }

/-! ## The conversation loop of `main` (lines 240-281) -/

/-- The message `Msg{Header: nil, Body: "Missing " + string(k)}` of lines 256 and 262. -/
def placeholder (k : Int) : Msg :=
  { Header := none, UID := 0, Date := "", Body := "Missing " ++ runeString k }

/-- Lines 253-257 and 260-263: `getMsg(k)`, replaced by the placeholder when it returns an
error. -/
def msgOrPlaceholder (lib : Lib) (env : Env) (k : Int) : Msg :=
  match getMsg lib env k with
  | .error _ => placeholder k
  | .ok m => m

/-- The loop `for i, k := range j` of lines 243-266, from index `i` on and with the conversation
`c` built so far. -/
def buildLoop (lib : Lib) (env : Env) : Nat → List Int → Conversation → Except Panic Conversation
  | _, [], c => .ok c
  | i, k :: rest, c =>
    if i = 0 then
      match env.ReadFile (rawPath k) with
      | .error err => .error (Panic.err err)
      | .ok entiremsg =>
        let c := { c with Id := hexString (sha1Sum entiremsg) }
        buildLoop lib env (i + 1) rest { c with Msgs := c.Msgs ++ [msgOrPlaceholder lib env k] }
    else
      buildLoop lib env (i + 1) rest { c with Msgs := c.Msgs ++ [msgOrPlaceholder lib env k] }

/-- Lines 242-267: the conversation built from the flattened sequence `j`, before it is
written. -/
def buildConversation (lib : Lib) (env : Env) (j : List Int) : Except Panic Conversation :=
  match buildLoop lib env 0 j { Id := "", Count := 0, Msgs := [] } with
  | .error p => .error p
  | .ok c => .ok { c with Count := Int.ofNat c.Msgs.length }

/-- What the loop over `flat` has produced so far: the conversation documents written, each
with its path, and the slice `archive`. -/
structure Run where
  written : List (String × Conversation)
  archive : List Conversation
deriving DecidableEq

/-- The loop `for _, j := range flat` of lines 241-281. -/
def mainLoop (lib : Lib) (env : Env) : List (List Int) → Run → Except Panic Run
  | [], run => .ok run
  | j :: flat, run =>
    match buildConversation lib env j with
    | .error p => .error p
    | .ok c =>
      let s := "c/" ++ c.Id ++ ".json"
      match env.WriteFile s with
      | .error err => .error (Panic.err err)
      | .ok _ =>
        -- line 277: prunebody := c.Msgs[0]
        match c.Msgs with
        | [] => .error Panic.indexOutOfRange
        | m0 :: _ =>
          let prunebody := { m0 with Body := "" }
          mainLoop lib env flat
            { written := run.written ++ [(s, c)],
              archive := run.archive ++ [{ Id := c.Id, Count := c.Count, Msgs := [prunebody] }] }

/-- Lines 240-281 from the start: `archive` is empty and nothing has been written. -/
def buildArchive (lib : Lib) (env : Env) (flat : List (List Int)) : Except Panic Run :=
  mainLoop lib env flat { written := [], archive := [] }

/-! ## Reference collaborators

A concrete `Lib` and `Env` on which the definitions above can be evaluated. The date functions
follow `time.Parse` and `Time.Format` for the two layouts `getMsg` uses; the mail functions are a
line-oriented reader that is enough to exercise every branch of `getMsg`. -/

/-- The text of a byte list, one character for each byte. -/
def bytesChars (b : Bytes) : List Char := b.map fun x => Char.ofNat x.toNat

/-- The bytes of a text of one-byte characters. -/
def strBytes (s : String) : Bytes := s.data.map fun c => UInt8.ofNat c.toNat

/-- The lines of a text, split at every line feed. -/
def splitLines : List Char → List (List Char)
  | [] => [[]]
  | x :: xs =>
    if x = '\n' then [] :: splitLines xs
    else match splitLines xs with
      | [] => [[x]]
      | l :: ls => (x :: l) :: ls

/-- The text before and after the first occurrence of `c`, when there is one. -/
def cutAt (c : Char) : List Char → Option (List Char × List Char)
  | [] => none
  | x :: xs =>
    if x = c then some ([], xs)
    else match cutAt c xs with
      | none => none
      | some p => some (x :: p.1, p.2)

/-- The text without its leading spaces (`cutspace` of package `time`). -/
def cutspace : List Char → List Char
  | [] => []
  | x :: xs => if x = ' ' then cutspace xs else x :: xs

/-- The text without leading and trailing spaces. -/
def trimSpace (s : List Char) : List Char := (cutspace (cutspace s).reverse).reverse

/-- The canonical form of a header name: the first letter and every letter after a hyphen in
upper case, the others in lower case (`textproto.CanonicalMIMEHeaderKey`). -/
def canonicalKey : Bool → List Char → List Char
  | _, [] => []
  | up, c :: cs => (if up then c.toUpper else c.toLower) :: canonicalKey (c = '-') cs

/-- The header lines up to the first empty line, added to `h`, and the lines after it; `none`
when a header line has no colon. A repeated name gets one more value. -/
def readHeader (h : MailHeader) : List (List Char) → Option (MailHeader × List (List Char))
  | [] => some (h, [])
  | [] :: body => some (h, body)
  | (c :: line) :: more =>
    match cutAt ':' (c :: line) with
    | none => none
    | some kv =>
      let key := String.mk (canonicalKey true kv.1)
      let value := String.mk (trimSpace kv.2)
      match h.lookup key with
      | none => readHeader (h.insert key ⟨value, []⟩) more
      | some v => readHeader (h.insert key ⟨v.first, v.rest ++ [value]⟩) more

/-- Modelled from the spec: the structured-email parser is a collaborator outside the repository
that "given raw bytes, returns header key→value(s) and body bytes"; this reader, in the manner
of `mail.ReadMessage`, takes header lines `Name: value`, an empty line, and the body. -/
def refReadMessage (b : Bytes) : Option MailMessage :=
  match readHeader ∅ (splitLines (bytesChars b)) with
  | none => none
  | some hb => some { Header := hb.1, Body := String.mk (List.intercalate ['\n'] hb.2) }

/-- The method `Header.Get`: the first value under the canonical form of `key`, or `""`. -/
def headerGet (h : MailHeader) (key : String) : String :=
  match h.lookup (String.mk (canonicalKey true key.data)) with
  | none => ""
  | some v => v.first

/-- Modelled from the spec: the parser "reports whether the content is multi-part"; here a
message is multi-part when its content type starts with `multipart/`. -/
def refIsMultipart (msg : MailMessage) : Bool :=
  HasPrefix (headerGet msg.Header "Content-Type") "multipart/"

/-- Modelled from the spec: for multi-part content the parser "yields a decoded plain-text body
and decoded header overrides"; here a multi-part body is accepted when it opens with a boundary
line (`--`), its text is made of the lines that are not boundary lines, and the header
overrides are the stored header values. -/
def refParseMIMEBody (msg : MailMessage) : Except String MIMEBody :=
  if HasPrefix msg.Body "--" then
    .ok { Text := String.mk (List.intercalate ['\n']
            ((splitLines msg.Body.data).filter fun l => !(['-', '-'].isPrefixOf l))),
          GetHeader := headerGet msg.Header }
  else .error "multipart: boundary not found"

/-- One address: `name <local@domain>` or `local@domain`. -/
def parseAddress (s : List Char) : Except String MailAddress :=
  let s := trimSpace s
  let na : List Char × List Char :=
    match cutAt '<' s with
    | none => ([], s)
    | some p =>
      match cutAt '>' p.2 with
      | none => ([], s)
      | some q => (trimSpace p.1, q.1)
  if '@' ∈ na.2 ∧ '<' ∉ na.2 then .ok { Name := String.mk na.1, Address := String.mk na.2 }
  else .error "mail: missing @ in addr-spec"

/-- The addresses of a comma separated list. -/
def parseAddresses : Nat → List Char → Except String (List MailAddress)
  | 0, _ => .error "mail: address list too long"
  | n + 1, s =>
    match cutAt ',' s with
    | none =>
      match parseAddress s with
      | .error e => .error e
      | .ok a => .ok [a]
    | some p =>
      match parseAddress p.1, parseAddresses n p.2 with
      | .ok a, .ok more => .ok (a :: more)
      | .error e, _ => .error e
      | _, .error e => .error e

/-- Modelled from the spec: "structured address-list parsing (each entry resolved to display
name + address)", in the manner of the method `Header.AddressList`: an error when the header is
not in the message or is not an address list. -/
def refAddressList (h : MailHeader) (key : String) : Except String (List MailAddress) :=
  let hdr := headerGet h key
  if hdr = "" then .error "mail: header not in message"
  else parseAddresses (hdr.length + 1) hdr.data

/-- The table `shortDayNames` of package `time`. -/
def shortDayNames : List String := ["Sun", "Mon", "Tue", "Wed", "Thu", "Fri", "Sat"]

/-- The table `shortMonthNames` of package `time`. -/
def shortMonthNames : List String :=
  ["Jan", "Feb", "Mar", "Apr", "May", "Jun", "Jul", "Aug", "Sep", "Oct", "Nov", "Dec"]

/-- Two bytes are equal, or are the same ASCII letter in different case. -/
def charMatch (c1 c2 : Char) : Bool :=
  c1 = c2 ∨ ((c1.toNat ||| 32) = (c2.toNat ||| 32) ∧ 97 ≤ (c1.toNat ||| 32) ∧ (c1.toNat ||| 32) ≤ 122)

/-- The texts have the same length and match byte for byte (`match` of package `time`). -/
def nameMatch : List Char → List Char → Bool
  | [], [] => true
  | a :: s1, b :: s2 => charMatch a b && nameMatch s1 s2
  | _, _ => false

/-- The index, counted from `i`, of the first name of `tab` that `val` starts with, and the rest
of `val` (`lookup` of package `time`). -/
def lookupName : List String → Nat → List Char → Option (Nat × List Char)
  | [], _, _ => none
  | v :: tab, i, val =>
    if v.length ≤ val.length ∧ nameMatch (val.take v.length) v.data then
      some (i, val.drop v.length)
    else lookupName tab (i + 1) val

/-- The value of a decimal digit. -/
def digitVal (c : Char) : Nat := c.toNat - 48

/-- A number of one or two digits, of exactly two when `fixed` (`getnum` of package `time`). -/
def getnum (fixed : Bool) : List Char → Option (Nat × List Char)
  | [] => none
  | [a] => if a.isDigit && !fixed then some (digitVal a, []) else none
  | a :: b :: rest =>
    if !a.isDigit then none
    else if !b.isDigit then (if fixed then none else some (digitVal a, b :: rest))
    else some (digitVal a * 10 + digitVal b, rest)

/-- One character of layout text matched against the value: a space of the layout stands for
any run of spaces, every other character for itself (`skip` of package `time`, for layout text
that has no two spaces in a row). -/
def skipChar (c : Char) (value : List Char) : Option (List Char) :=
  if c = ' ' then
    match value with
    | [] => some []
    | v :: vs => if v = ' ' then some (cutspace vs) else none
  else
    match value with
    | [] => none
    | v :: vs => if v = c then some vs else none

/-- The layout text `pre` matched against the start of the value. -/
def skip : List Char → List Char → Option (List Char)
  | [], value => some value
  | c :: pre, value =>
    match skipChar c value with
    | none => none
    | some value => skip pre value

/-- A year of exactly four digits. -/
def getYear : List Char → Option (Nat × List Char)
  | a :: b :: c :: d :: rest =>
    if a.isDigit && b.isDigit && c.isDigit && d.isDigit then
      some (((digitVal a * 10 + digitVal b) * 10 + digitVal c) * 10 + digitVal d, rest)
    else none
  | _ => none

/-- The fraction of a second that may follow the seconds although the layout has none: a
period or comma and at least one digit are passed over. -/
def skipFraction : List Char → List Char
  | c :: d :: rest =>
    if (c = '.' || c = ',') && d.isDigit then rest.dropWhile Char.isDigit else c :: d :: rest
  | value => value

/-- A numeric zone `+hhmm` or `-hhmm`, in seconds east of UTC. -/
def getZone : List Char → Option (Int × List Char)
  | sign :: h1 :: h2 :: m1 :: m2 :: rest =>
    match getnum true [h1, h2], getnum true [m1, m2] with
    | some (hr, _), some (mm, _) =>
      if hr > 24 ∨ mm > 60 then none
      else if sign = '+' then some (Int.ofNat ((hr * 60 + mm) * 60), rest)
      else if sign = '-' then some (-Int.ofNat ((hr * 60 + mm) * 60), rest)
      else none
    | _, _ => none
  | _ => none

/-- The number of days of a month (`daysIn` of package `time`). -/
def daysIn (month year : Nat) : Nat :=
  if month = 2 then
    (if year % 4 = 0 ∧ (year % 100 ≠ 0 ∨ year % 400 = 0) then 29 else 28)
  else if month = 4 ∨ month = 6 ∨ month = 9 ∨ month = 11 then 30
  else 31

/-- The date part `Mon, 02 Jan 2006` of the layout: day, month, year and the rest of the value.
The day name is only checked to be a day name. -/
def parseDatePart (value : List Char) : Option ((Nat × Nat × Nat) × List Char) :=
  (lookupName shortDayNames 0 value).bind fun wd =>
  (skip [',', ' '] wd.2).bind fun value =>
  (getnum true value).bind fun day =>
  (skip [' '] day.2).bind fun value =>
  (lookupName shortMonthNames 1 value).bind fun month =>
  (skip [' '] month.2).bind fun value =>
  (getYear value).bind fun year => some ((day.1, month.1, year.1), year.2)

/-- The clock part `15:04:05` of the layout: hour, minute, second and the rest of the value. -/
def parseClockPart (value : List Char) : Option ((Nat × Nat × Nat) × List Char) :=
  (getnum false value).bind fun hour =>
  (skip [':'] hour.2).bind fun value =>
  (getnum true value).bind fun min =>
  (skip [':'] min.2).bind fun value =>
  (getnum true value).bind fun sec => some ((hour.1, min.1, sec.1), skipFraction sec.2)

/-- Modelled from the spec: package `time` is outside the repository; the "standard
network-mail date format (day, date, month, year, time, numeric zone offset)" is read the way
`time.Parse(time.RFC1123Z, value)` reads it: day name, comma, two-digit day, month name,
four-digit year, `hh:mm:ss`, zone `+hhmm`; `none` is a parse error. -/
def parseRFC1123Z (value : List Char) : Option Time :=
  (parseDatePart value).bind fun date =>
  (skip [' '] date.2).bind fun value =>
  (parseClockPart value).bind fun clock =>
  (skip [' '] clock.2).bind fun value =>
  (getZone value).bind fun zone =>
  if zone.2 = [] ∧ clock.1.1 < 24 ∧ clock.1.2.1 < 60 ∧ clock.1.2.2 < 60 ∧ 1 ≤ date.1.1
      ∧ date.1.1 ≤ daysIn date.1.2.1 date.1.2.2 then
    some { year := date.1.2.2, month := date.1.2.1, day := date.1.1, hour := clock.1.1,
           min := clock.1.2.1, sec := clock.1.2.2, offset := zone.1 }
  else none

/-- The decimal digits of `n`, padded with zeros to `width` (`appendInt` of package `time`). -/
def padInt (width n : Nat) : List Char :=
  List.replicate (width - (Nat.toDigits 10 n).length) '0' ++ Nat.toDigits 10 n

/-- Modelled from the spec: the "ISO-8601" text of a time, the way `t.Format(time.RFC3339)`
writes it: `yyyy-mm-ddThh:mm:ss` and the zone, `Z` for offset zero and `+hh:mm` or `-hh:mm`
otherwise. -/
def formatRFC3339 (t : Time) : String :=
  String.mk (padInt 4 t.year ++ ['-'] ++ padInt 2 t.month ++ ['-'] ++ padInt 2 t.day ++ ['T']
    ++ padInt 2 t.hour ++ [':'] ++ padInt 2 t.min ++ [':'] ++ padInt 2 t.sec
    ++ (if t.offset = 0 then ['Z']
        else [if t.offset < 0 then '-' else '+'] ++ padInt 2 (t.offset.natAbs / 60 / 60)
          ++ [':'] ++ padInt 2 (t.offset.natAbs / 60 % 60)))

/-- The reference library. -/
def refLib : Lib where
  ReadMessage := refReadMessage
  IsMultipartMessage := refIsMultipart
  ParseMIMEBody := refParseMIMEBody
  AddressList := refAddressList
  timeParse := fun layout value => if layout = RFC1123Z then parseRFC1123Z value.data else none
  timeFormat := fun t layout => if layout = RFC3339 then formatRFC3339 t else ""

/-- A thread opener with a well-formed date, a malformed `To`, a `Cc`, and headers to prune. -/
def sampleFirst : String :=
  "Date: Mon, 02 Jan 2006 15:04:05 -0700\nFrom: Alice <alice@example.org>\nTo: nobody\n" ++
  "Cc: carol@example.org\nSubject: hello\nX-Mailer: mutt\nList-Id: dev\n" ++
  "List-Owner: owner@example.org\nReceived: by mx\n\nfirst body"

/-- A reply whose date is not a date. -/
def sampleThird : String := "Date: garbage\nFrom: bob@example.org\n\nthird body"

/-- A resent message: it carries `Resent-To`, which is deleted, and `Resent-Bcc`, which no
`delete` statement names. -/
def sampleResent : String :=
  "From: dave@example.org\nResent-To: erin@example.org\nResent-Bcc: hidden@example.org\n\n" ++
  "fourth body"

/-- A raw store holding messages 101, 103, 104 and 200 (the same bytes as 101) and not 102;
every write succeeds. -/
def sampleEnv : Env where
  ReadFile := fun path =>
    if path = "raw/101.txt" then .ok (strBytes sampleFirst)
    else if path = "raw/103.txt" then .ok (strBytes sampleThird)
    else if path = "raw/200.txt" then .ok (strBytes sampleFirst)
    else if path = "raw/104.txt" then .ok (strBytes sampleResent)
    else .error ("open " ++ path ++ ": no such file or directory")
  WriteFile := fun _ => .ok ()

/-- Message 101 as the reference reader parses it. -/
def sampleMsg : MailMessage :=
  (refReadMessage (strBytes sampleFirst)).getD { Header := ∅, Body := "" }

/-- Message 103 as the reference reader parses it. -/
def sampleReply : MailMessage :=
  (refReadMessage (strBytes sampleThird)).getD { Header := ∅, Body := "" }

/-- The thread structure `[[101,[102,103]],200]`. -/
def sampleThread : Field :=
  .list [.list [.uint32 101, .list [.uint32 102, .uint32 103]], .uint32 200]

/-! ## Auxiliary definitions for the statements -/

/-- The step of the copy loop of lines 365-371. -/
def copyStep (acc : String × HeaderMap) (e : Sigma fun _ : String => Values) :
    String × HeaderMap :=
  if e.1 = "Date" then (e.2.first, acc.2) else (acc.1, acc.2.insert e.1 (HeaderValue.strings e.2))

/-- The mail header as the copy loop and the address loop of `getMsg` see it: after the
`Subject` assignment and the pruning. -/
def prunedHeader (lib : Lib) (msg : MailMessage) : MailHeader :=
  pruneHeaders (readBody lib msg zeroMsg).2

/-- The summary entry of lines 277-279 for the conversation `c`: its `Id`, its `Count` and one
message, which has the header map, UID and date of `first` and an empty body. -/
def IsSummaryOf (c s : Conversation) : Prop :=
  ∃ first rest, c.Msgs = first :: rest ∧ s.Id = c.Id ∧ s.Count = c.Count ∧
    s.Msgs = [{ Header := first.Header, UID := first.UID, Date := first.Date, Body := "" }]

/-! ## Lemmas on maps -/

section Maps

variable {β : Type}

/-- Deleting a list of keys keeps exactly the keys that are not in the list. -/
theorem mem_foldl_erase (L : List String) (h : AList (fun _ : String => β)) (k : String) :
    k ∈ L.foldl (fun h key => h.erase key) h ↔ k ∈ h ∧ k ∉ L := by
  induction L generalizing h with
  | nil => simp
  | cons a L ih =>
    simp only [List.foldl_cons, ih, AList.mem_erase, List.mem_cons, not_or]
    tauto

/-- Deleting a list of keys leaves the other entries as they are. -/
theorem lookup_foldl_erase (L : List String) (h : AList (fun _ : String => β)) (k : String)
    (hk : k ∉ L) : (L.foldl (fun h key => h.erase key) h).lookup k = h.lookup k := by
  induction L generalizing h with
  | nil => rfl
  | cons a L ih =>
    simp only [List.mem_cons, not_or] at hk
    simp only [List.foldl_cons]
    rw [ih _ hk.2, AList.lookup_erase_ne hk.1]

/-- Deleting the keys of `L` that satisfy `p` keeps the keys that are not both in `L` and
satisfying `p`. -/
theorem mem_foldl_erase_if (p : String → Bool) (L : List String)
    (h : AList (fun _ : String => β)) (k : String) :
    k ∈ L.foldl (fun h key => if p key then h.erase key else h) h ↔
      k ∈ h ∧ ¬ (k ∈ L ∧ p k = true) := by
  induction L generalizing h with
  | nil => simp
  | cons a L ih =>
    simp only [List.foldl_cons, ih, List.mem_cons]
    by_cases hp : p a = true
    · simp only [hp, if_true, AList.mem_erase]
      constructor
      · rintro ⟨⟨hne, hm⟩, hn⟩
        refine ⟨hm, ?_⟩
        rintro ⟨hka | hkL, hpk⟩
        · exact hne hka
        · exact hn ⟨hkL, hpk⟩
      · rintro ⟨hm, hn⟩
        refine ⟨⟨?_, hm⟩, fun hh => hn ⟨Or.inr hh.1, hh.2⟩⟩
        intro hka
        exact hn ⟨Or.inl hka, hka ▸ hp⟩
    · simp only [hp, Bool.false_eq_true, if_false]
      constructor
      · rintro ⟨hm, hn⟩
        refine ⟨hm, ?_⟩
        rintro ⟨hka | hkL, hpk⟩
        · exact hp (hka ▸ hpk)
        · exact hn ⟨hkL, hpk⟩
      · rintro ⟨hm, hn⟩
        exact ⟨hm, fun hh => hn ⟨Or.inr hh.1, hh.2⟩⟩

/-- Deleting keys that satisfy `p` leaves the entries whose key does not satisfy `p`. -/
theorem lookup_foldl_erase_if (p : String → Bool) (L : List String)
    (h : AList (fun _ : String => β)) (k : String) (hk : p k = false) :
    (L.foldl (fun h key => if p key then h.erase key else h) h).lookup k = h.lookup k := by
  induction L generalizing h with
  | nil => rfl
  | cons a L ih =>
    simp only [List.foldl_cons]
    rw [ih]
    by_cases hp : p a = true
    · have hne : k ≠ a := by
        intro hka
        rw [hka, hp] at hk
        exact Bool.noConfusion hk
      simp only [hp, if_true]
      exact AList.lookup_erase_ne hne
    · simp [hp]

end Maps

/-! ## Lemmas on `getMsg` -/

/-- The keys of the pruned header: those of the header that are not on the denylist and do not
start with `X-`. -/
theorem mem_pruneHeaders (h : MailHeader) (k : String) :
    k ∈ pruneHeaders h ↔ k ∈ h ∧ k ∉ denylist ∧ HasPrefix k "X-" = false := by
  unfold pruneHeaders deleteXHeaders
  rw [mem_foldl_erase_if, mem_foldl_erase, ← AList.mem_keys, mem_foldl_erase]
  cases HasPrefix k "X-" <;> simp

/-- Pruning leaves every other entry as it is. -/
theorem lookup_pruneHeaders (h : MailHeader) (k : String) (hd : k ∉ denylist)
    (hx : HasPrefix k "X-" = false) : (pruneHeaders h).lookup k = h.lookup k := by
  unfold pruneHeaders deleteXHeaders
  rw [lookup_foldl_erase_if (fun key => HasPrefix key "X-") _ _ k hx,
    lookup_foldl_erase _ _ _ hd]

/-- The copy loop is a fold of `copyStep` over the entries of the header. -/
theorem copyHeaders_eq (h : MailHeader) (date : String) (hdr : HeaderMap) :
    copyHeaders h date hdr = h.entries.foldl copyStep (date, hdr) := rfl

/-- The copy loop never stores anything under `Date`. -/
theorem copy_lookup_date (es : List (Sigma fun _ : String => Values)) (acc : String × HeaderMap) :
    (es.foldl copyStep acc).2.lookup "Date" = acc.2.lookup "Date" := by
  induction es generalizing acc with
  | nil => rfl
  | cons e es ih =>
    rw [List.foldl_cons, ih]
    unfold copyStep
    by_cases he : e.1 = "Date"
    · simp [he]
    · simp only [he, if_false]
      exact AList.lookup_insert_ne (Ne.symm he)

/-- After the copy loop, a name other than `Date` holds the raw values of the mail header, or
what it held before when the mail header does not have it. -/
theorem copy_lookup (es : List (Sigma fun _ : String => Values)) (hnd : es.NodupKeys)
    (acc : String × HeaderMap) (k : String) (hk : k ≠ "Date") :
    (es.foldl copyStep acc).2.lookup k =
      match es.dlookup k with
      | some v => some (HeaderValue.strings v)
      | none => acc.2.lookup k := by
  induction es generalizing acc with
  | nil => rfl
  | cons e es ih =>
    obtain ⟨k0, v0⟩ := e
    rw [List.nodupKeys_cons] at hnd
    rw [List.foldl_cons, ih hnd.2]
    by_cases hkk : k = k0
    · subst hkk
      have hnone : es.dlookup k = none := List.dlookup_eq_none.mpr hnd.1
      simp only [hnone, List.dlookup_cons_eq, copyStep, hk, if_false]
      exact AList.lookup_insert _
    · rw [List.dlookup_cons_ne _ _ hkk]
      cases hlk : es.dlookup k with
      | some v => rfl
      | none =>
        simp only [copyStep]
        by_cases he : k0 = "Date"
        · simp [he]
        · simp only [he, if_false]
          exact AList.lookup_insert_ne hkk

/-- After the copy loop, the date is the first value of the `Date` entry of the mail header. -/
theorem copy_date (es : List (Sigma fun _ : String => Values)) (hnd : es.NodupKeys)
    (acc : String × HeaderMap) (v : Values) (hv : es.dlookup "Date" = some v) :
    (es.foldl copyStep acc).1 = v.first := by
  induction es generalizing acc with
  | nil => simp at hv
  | cons e es ih =>
    obtain ⟨k0, v0⟩ := e
    rw [List.nodupKeys_cons] at hnd
    rw [List.foldl_cons]
    by_cases hkk : k0 = "Date"
    · subst hkk
      rw [List.dlookup_cons_eq] at hv
      have hv0 : v0 = v := Option.some.inj hv
      subst hv0
      have hnone : ∀ (acc : String × HeaderMap), (es.foldl copyStep acc).1 = acc.1 := by
        have hnot := hnd.1
        clear ih hv hnd
        induction es with
        | nil => intro acc; rfl
        | cons e es ih2 =>
          intro acc
          rw [List.keys_cons, List.mem_cons, not_or] at hnot
          rw [List.foldl_cons, ih2 hnot.2]
          have : ¬ e.1 = "Date" := fun h => hnot.1 h.symm
          simp [copyStep, this]
      rw [hnone]
      simp [copyStep]
    · rw [List.dlookup_cons_ne _ _ (Ne.symm hkk)] at hv
      exact ih hnd.2 _ hv

/-- The keys after the copy loop come from the map before it or from the mail header. -/
theorem copy_mem (es : List (Sigma fun _ : String => Values)) (acc : String × HeaderMap)
    (k : String) (hk : k ∈ (es.foldl copyStep acc).2) : k ∈ acc.2 ∨ k ∈ es.keys := by
  induction es generalizing acc with
  | nil => exact Or.inl hk
  | cons e es ih =>
    rw [List.foldl_cons] at hk
    rcases ih _ hk with h1 | h2
    · unfold copyStep at h1
      by_cases he : e.1 = "Date"
      · simp only [he, if_true] at h1
        exact Or.inl h1
      · simp only [he, if_false, AList.mem_insert] at h1
        rcases h1 with h1 | h1
        · right; rw [List.keys_cons]; exact List.mem_cons.mpr (Or.inl h1)
        · exact Or.inl h1
    · right; rw [List.keys_cons]; exact List.mem_cons_of_mem _ h2

/-- The keys after the address loop are those before it, `To`, `From` or `CC`. -/
theorem mem_addressHeaders (lib : Lib) (h : MailHeader) (hdr : HeaderMap) (k : String)
    (hk : k ∈ addressHeaders lib h hdr) : k ∈ hdr ∨ k = "To" ∨ k = "From" ∨ k = "CC" := by
  unfold addressHeaders at hk
  simp only [List.foldl_cons, List.foldl_nil] at hk
  cases h1 : lib.AddressList h "To" <;> cases h2 : lib.AddressList h "From" <;>
    cases h3 : lib.AddressList h "CC" <;> simp only [h1, h2, h3, AList.mem_insert] at hk <;> tauto

/-- The address loop leaves every name other than `To`, `From` and `CC` as it is. -/
theorem lookup_addressHeaders_ne (lib : Lib) (h : MailHeader) (hdr : HeaderMap) (k : String)
    (h1 : k ≠ "To") (h2 : k ≠ "From") (h3 : k ≠ "CC") :
    (addressHeaders lib h hdr).lookup k = hdr.lookup k := by
  unfold addressHeaders
  simp only [List.foldl_cons, List.foldl_nil]
  cases lib.AddressList h "To" <;> cases lib.AddressList h "From" <;>
    cases lib.AddressList h "CC" <;>
    simp [AList.lookup_insert_ne h1, AList.lookup_insert_ne h2, AList.lookup_insert_ne h3]

/-- After the address loop, each of `To`, `From` and `CC` holds the parsed list when parsing
succeeds and what it held before when parsing fails. -/
theorem lookup_addressHeaders (lib : Lib) (h : MailHeader) (hdr : HeaderMap) (a : String)
    (ha : a = "To" ∨ a = "From" ∨ a = "CC") :
    (addressHeaders lib h hdr).lookup a =
      match lib.AddressList h a with
      | .ok addrs => some (HeaderValue.addrs addrs)
      | .error _ => hdr.lookup a := by
  have n1 : ("To" : String) ≠ "From" := by decide
  have n2 : ("To" : String) ≠ "CC" := by decide
  have n3 : ("From" : String) ≠ "CC" := by decide
  unfold addressHeaders
  simp only [List.foldl_cons, List.foldl_nil]
  rcases ha with ha | ha | ha <;> subst ha <;>
    cases lib.AddressList h "To" <;> cases lib.AddressList h "From" <;>
    cases lib.AddressList h "CC" <;>
    simp [AList.lookup_insert, AList.lookup_insert_ne n1, AList.lookup_insert_ne n2,
      AList.lookup_insert_ne n3, AList.lookup_insert_ne n1.symm, AList.lookup_insert_ne n2.symm,
      AList.lookup_insert_ne n3.symm]

/-! ## Lemmas on flattening and on the conversation loop -/

/-- The loop of `dumplist` appends the flattened children, in order, to what it starts from. -/
theorem dumplistLoop_eq (t : List Field) (l : List Int) :
    dumplistLoop l t = l ++ (t.map dumplist).flatten := by
  induction t generalizing l with
  | nil => simp [dumplistLoop]
  | cons v rest ih => simp [dumplistLoop, ih]

/-- The loop of `dumpl` appends one flattened sequence for each element, in order. -/
theorem dumplLoop_eq (t : List Field) (l : List (List Int)) :
    dumplLoop l t = l ++ t.map dumplist := by
  induction t generalizing l with
  | nil => simp [dumplLoop]
  | cons v rest ih => simp [dumplLoop, ih]

/-- A result that is not an error has a value. -/
theorem exists_ok_of_isSome {ε α : Type} (r : Except ε α) (h : r.toOption.isSome = true) :
    ∃ a, r = .ok a := by
  cases r with
  | ok a => exact ⟨a, rfl⟩
  | error e => simp [Except.toOption] at h

/-- An option that is not `none` is its own value. -/
theorem eq_some_getD {α : Type} (o : Option α) (d : α) (h : o.isSome = true) :
    o = some (o.getD d) := by
  cases o with
  | none => simp at h
  | some a => rfl

/-- `getMsg` returns an error exactly when the raw file cannot be read, and that error. -/
theorem getMsg_error (lib : Lib) (env : Env) (id : Int) (e : String)
    (h : env.ReadFile (rawPath id) = .error e) : getMsg lib env id = .error e := by
  unfold getMsg
  simp only [h]

/-- `getMsg` returns a message whenever the raw file can be read. -/
theorem getMsg_ok (lib : Lib) (env : Env) (id : Int) (raw : Bytes)
    (h : env.ReadFile (rawPath id) = .ok raw) : ∃ m, getMsg lib env id = .ok m := by
  unfold getMsg
  simp only [h]
  cases lib.ReadMessage raw with
  | none => exact ⟨_, rfl⟩
  | some msg => exact ⟨_, rfl⟩

/-- Past the first identifier the loop cannot abort: it appends one message for each
identifier. -/
theorem buildLoop_succ (lib : Lib) (env : Env) (n : Nat) (j : List Int) (c : Conversation) :
    buildLoop lib env (n + 1) j c =
      .ok { c with Msgs := c.Msgs ++ j.map (msgOrPlaceholder lib env) } := by
  induction j generalizing n c with
  | nil => simp [buildLoop]
  | cons k rest ih => simp [buildLoop, ih]

/-- The conversation built from the empty sequence. -/
theorem buildConversation_nil (lib : Lib) (env : Env) :
    buildConversation lib env [] = .ok { Id := "", Count := 0, Msgs := [] } := by
  simp [buildConversation, buildLoop]

/-- The conversation built from a sequence whose first raw file can be read. -/
theorem buildConversation_cons_ok (lib : Lib) (env : Env) (k : Int) (rest : List Int)
    (raw : Bytes) (h : env.ReadFile (rawPath k) = .ok raw) :
    buildConversation lib env (k :: rest) =
      .ok { Id := hexString (sha1Sum raw), Count := Int.ofNat (rest.length + 1),
            Msgs := (k :: rest).map (msgOrPlaceholder lib env) } := by
  simp [buildConversation, buildLoop, h, buildLoop_succ]

/-- The run aborts on a sequence whose first raw file cannot be read. -/
theorem buildConversation_cons_error (lib : Lib) (env : Env) (k : Int) (rest : List Int)
    (e : String) (h : env.ReadFile (rawPath k) = .error e) :
    buildConversation lib env (k :: rest) = .error (Panic.err e) := by
  simp [buildConversation, buildLoop, h]

/-- A conversation that is built has one message for each identifier, in order, and its count
is their number. -/
theorem buildConversation_msgs (lib : Lib) (env : Env) (j : List Int) (c : Conversation)
    (h : buildConversation lib env j = .ok c) :
    c.Msgs = j.map (msgOrPlaceholder lib env) ∧ c.Count = Int.ofNat c.Msgs.length := by
  cases j with
  | nil =>
    rw [buildConversation_nil] at h
    cases h
    exact ⟨rfl, rfl⟩
  | cons k rest =>
    cases hr : env.ReadFile (rawPath k) with
    | error e =>
      rw [buildConversation_cons_error lib env k rest e hr] at h
      cases h
    | ok raw =>
      rw [buildConversation_cons_ok lib env k rest raw hr] at h
      cases h
      exact ⟨rfl, by simp⟩

/-- The message stored for an identifier whose raw file cannot be read is the placeholder. -/
theorem msgOrPlaceholder_error (lib : Lib) (env : Env) (k : Int) (e : String)
    (h : env.ReadFile (rawPath k) = .error e) : msgOrPlaceholder lib env k = placeholder k := by
  unfold msgOrPlaceholder
  rw [getMsg_error lib env k e h]

/-- The message stored for an identifier whose raw file can be read is the result of
`getMsg`. -/
theorem msgOrPlaceholder_ok (lib : Lib) (env : Env) (k : Int) (raw : Bytes)
    (h : env.ReadFile (rawPath k) = .ok raw) :
    ∃ m, getMsg lib env k = .ok m ∧ msgOrPlaceholder lib env k = m := by
  obtain ⟨m, hm⟩ := getMsg_ok lib env k raw h
  exact ⟨m, hm, by unfold msgOrPlaceholder; rw [hm]⟩

/-- The date and the body of `readBody`: it only sets the body. -/
theorem readBody_date (lib : Lib) (msg : MailMessage) : (readBody lib msg zeroMsg).1.Date = "" := by
  unfold readBody
  cases lib.IsMultipartMessage msg with
  | false => rfl
  | true =>
    cases lib.ParseMIMEBody msg with
    | error e => rfl
    | ok mime => rfl

/-- The message `getMsg` returns for a raw file that is read and parsed. -/
theorem getMsg_parsed (lib : Lib) (env : Env) (id : Int) (raw : Bytes) (msg : MailMessage)
    (hread : env.ReadFile (rawPath id) = .ok raw) (hmsg : lib.ReadMessage raw = some msg) :
    getMsg lib env id = .ok
      { Header := some (addressHeaders lib (prunedHeader lib msg)
          (copyHeaders (prunedHeader lib msg) "" ∅).2),
        UID := id,
        Date := (match lib.timeParse RFC1123Z (copyHeaders (prunedHeader lib msg) "" ∅).1 with
          | some t => lib.timeFormat t RFC3339
          | none => (copyHeaders (prunedHeader lib msg) "" ∅).1),
        Body := (readBody lib msg zeroMsg).1.Body } := by
  unfold getMsg prunedHeader
  simp only [hread, hmsg, readBody_date]
  generalize lib.timeParse RFC1123Z
    (copyHeaders (pruneHeaders (readBody lib msg zeroMsg).2) "" ∅).1 = parsed
  cases parsed with
  | none => simp only
  | some t => simp only

/-- The message `getMsg` returns for a raw file that is read and not parsed. -/
theorem getMsg_unparsed (lib : Lib) (env : Env) (id : Int) (raw : Bytes)
    (hread : env.ReadFile (rawPath id) = .ok raw) (hmsg : lib.ReadMessage raw = none) :
    getMsg lib env id = .ok zeroMsg := by
  unfold getMsg
  simp only [hread, hmsg]

/-- The header of `readBody` has the entries of the parsed header, but for `Subject`. -/
theorem readBody_lookup (lib : Lib) (msg : MailMessage) (k : String) (hk : k ≠ "Subject") :
    (readBody lib msg zeroMsg).2.lookup k = msg.Header.lookup k := by
  unfold readBody
  cases lib.IsMultipartMessage msg with
  | false => rfl
  | true =>
    cases lib.ParseMIMEBody msg with
    | error e => rfl
    | ok mime => exact AList.lookup_insert_ne hk

/-- The pruned header has the entries of the parsed header for every name that is neither
`Subject`, nor on the denylist, nor starting with `X-`. -/
theorem prunedHeader_lookup (lib : Lib) (msg : MailMessage) (k : String) (hk : k ≠ "Subject")
    (hd : k ∉ denylist) (hx : HasPrefix k "X-" = false) :
    (prunedHeader lib msg).lookup k = msg.Header.lookup k := by
  unfold prunedHeader
  rw [lookup_pruneHeaders _ _ hd hx, readBody_lookup lib msg k hk]

/-- A run of the loop over `flat` that ends without panic has built one conversation for each
sequence, and has appended these conversations to `written` and their summary entries to
`archive`, in order. -/
theorem mainLoop_ok (lib : Lib) (env : Env) (flat : List (List Int)) (run done : Run)
    (h : mainLoop lib env flat run = .ok done) :
    ∃ cs ss : List Conversation,
      List.Forall₂ (fun j c => buildConversation lib env j = .ok c) flat cs ∧
      done.written.map Prod.snd = run.written.map Prod.snd ++ cs ∧
      done.archive = run.archive ++ ss ∧
      List.Forall₂ IsSummaryOf cs ss := by
  induction flat generalizing run with
  | nil =>
    simp only [mainLoop, Except.ok.injEq] at h
    subst h
    exact ⟨[], [], List.Forall₂.nil, by simp, by simp, List.Forall₂.nil⟩
  | cons j flat ih =>
    unfold mainLoop at h
    cases hb : buildConversation lib env j with
    | error p => simp [hb] at h
    | ok c =>
      simp only [hb] at h
      cases hw : env.WriteFile ("c/" ++ c.Id ++ ".json") with
      | error e => simp [hw] at h
      | ok u =>
        simp only [hw] at h
        cases hm : c.Msgs with
        | nil => simp [hm] at h
        | cons m0 more =>
          simp only [hm] at h
          obtain ⟨cs, ss, hcs, hwr, har, hss⟩ := ih _ h
          refine ⟨c :: cs,
            { Id := c.Id, Count := c.Count, Msgs := [{ m0 with Body := "" }] } :: ss,
            List.Forall₂.cons hb hcs, ?_, ?_,
            List.Forall₂.cons ⟨m0, more, hm, rfl, rfl, rfl⟩ hss⟩
          · simpa using hwr
          · simpa using har

/-- The digest has 20 bytes. -/
theorem sha1Sum_length (msg : Bytes) : (sha1Sum msg).length = 20 := by
  simp [sha1Sum, be32]

/-- The hexadecimal text has two characters for each byte. -/
theorem hexString_length (b : List Nat) : (hexString b).length = 2 * b.length := by
  unfold hexString
  rw [String.length_mk]
  induction b with
  | nil => rfl
  | cons x b ih =>
    simp only [List.flatMap_cons, List.length_append, ih, List.length_cons]
    simp [hexByte]
    omega

/-- The hexadecimal digits are the sixteen characters `0` to `9` and `a` to `f`. -/
theorem hexDigit_mem : ∀ n, n < 16 → hexDigit n ∈ "0123456789abcdef".data := by decide

/-- The hexadecimal text is made of hexadecimal digits. -/
theorem hexString_chars (b : List Nat) (ch : Char) (h : ch ∈ (hexString b).data) :
    ch ∈ "0123456789abcdef".data := by
  unfold hexString at h
  simp only [List.mem_flatMap, hexByte, List.mem_cons, List.mem_singleton, List.not_mem_nil,
    or_false] at h
  obtain ⟨x, -, hx | hx⟩ := h
  · rw [hx]; exact hexDigit_mem _ (Nat.mod_lt _ (by decide))
  · rw [hx]; exact hexDigit_mem _ (Nat.mod_lt _ (by decide))

/-- The keys of the header map `getMsg` returns are not in `denylist` and do not start with
`X-`. -/
theorem getMsg_keys_pruned (lib : Lib) (env : Env) (id : Int) (m : Msg) (hdr : HeaderMap)
    (h : getMsg lib env id = .ok m) (hh : m.Header = some hdr) (key : String) (hk : key ∈ hdr) :
    key ∉ denylist ∧ HasPrefix key "X-" = false := by
  cases hread : env.ReadFile (rawPath id) with
  | error e =>
    rw [getMsg_error lib env id e hread] at h
    cases h
  | ok raw =>
    cases hmsg : lib.ReadMessage raw with
    | none =>
      rw [getMsg_unparsed lib env id raw hread hmsg] at h
      cases h
      cases hh
    | some msg =>
      rw [getMsg_parsed lib env id raw msg hread hmsg] at h
      cases h
      cases hh
      rcases mem_addressHeaders lib _ _ key hk with h1 | h2 | h2 | h2
      · rw [copyHeaders_eq] at h1
        rcases copy_mem _ _ key h1 with h3 | h3
        · exact absurd h3 (AList.not_mem_empty key)
        · have h4 : key ∈ pruneHeaders (readBody lib msg zeroMsg).2 := AList.mem_keys.mpr h3
          exact ((mem_pruneHeaders _ key).mp h4).2
      · subst h2; exact ⟨by decide, by decide⟩
      · subst h2; exact ⟨by decide, by decide⟩
      · subst h2; exact ⟨by decide, by decide⟩

/-! ## The claims -/

/-- C1: flattening is the depth-first, left-to-right reference definition. `dumplist` of a leaf
identifier `n` is `[n]`; `dumplist` of a nested sequence is the concatenation, in order, of
`dumplist` of its children; `dumplist` of any other value is empty; `dumpl` of a root sequence
is the list of `dumplist` of its elements, so it has as many sequences as the root has
elements; and `[[101,[102,103]],200]` flattens to `[[101,102,103],[200]]`. -/
theorem dumplist_depth_first :
    (∀ n : UInt32, dumplist (.uint32 n) = [Int.ofNat n.toNat]) ∧
    (∀ b : List Field, dumplist (.list b) = (b.map dumplist).flatten) ∧
    (∀ typeName : String, dumplist (.other typeName) = []) ∧
    (∀ r : List Field, dumpl (.list r) = r.map dumplist ∧ (dumpl (.list r)).length = r.length) ∧
    dumpl sampleThread = [[101, 102, 103], [200]] := by
  refine ⟨fun n => ?_, fun b => ?_, fun t => ?_, fun r => ?_, by decide⟩
  · simp [dumplist]
  · simp [dumplist, dumplistLoop_eq]
  · simp [dumplist]
  · simp [dumpl, dumplLoop_eq]

/-- C2 (the code at the failing input): with the raw bytes of 102 missing, the conversation
built from `[101,102,103]` has count 3 and its second message has no header map, but its body
is `"Missing f"`, the text `"Missing "` followed by the one character of code point 102, and
not `"Missing 102"`. -/
theorem missing_body_is_code_point :
    sampleEnv.ReadFile (rawPath 102) = .error "open raw/102.txt: no such file or directory" ∧
    (buildConversation refLib sampleEnv [101, 102, 103]).toOption.map
        (fun c => (c.Count, c.Msgs.map fun m => (m.Header.isNone, m.Body))) =
      some (3, [(false, "first body"), (true, "Missing f"), (false, "third body")]) ∧
    "Missing f" ≠ "Missing " ++ toString (102 : Int) := by
  refine ⟨by decide, by decide, by decide⟩

/-- C3 (counterexample): the raw bytes of 102 are missing and 102 is the first identifier of the
sequence `[102,101]`; the build step does not yield a conversation, it aborts with the read
error. -/
theorem first_missing_aborts :
    sampleEnv.ReadFile (rawPath 102) = .error "open raw/102.txt: no such file or directory" ∧
    buildConversation refLib sampleEnv [102, 101] =
      .error (Panic.err "open raw/102.txt: no such file or directory") ∧
    ¬ ∃ c, buildConversation refLib sampleEnv [102, 101] = .ok c := by
  have h : buildConversation refLib sampleEnv [102, 101] =
      .error (Panic.err "open raw/102.txt: no such file or directory") :=
    buildConversation_cons_error refLib sampleEnv 102 [101] _ (by decide)
  refine ⟨by decide, h, ?_⟩
  rintro ⟨c, hc⟩
  rw [h] at hc
  cases hc

/-- C3 (amended): for a non-empty sequence whose first identifier has raw bytes in the store,
the build step completes, with one message for each identifier, and at every position whose
identifier has no raw bytes the message is a placeholder: no header map and a body that starts
with `"Missing "`. For a sequence whose first identifier has no raw bytes the build step aborts
with the read error. -/
theorem missing_recovered_after_first (lib : Lib) (env : Env) (k : Int) (rest : List Int) :
    (∀ raw, env.ReadFile (rawPath k) = .ok raw →
      ∃ c, buildConversation lib env (k :: rest) = .ok c ∧ c.Msgs.length = rest.length + 1 ∧
        ∀ (i : Nat) (k2 : Int) (e : String), (k :: rest)[i]? = some k2 →
          env.ReadFile (rawPath k2) = .error e →
          ∃ (m : Msg) (s : String), c.Msgs[i]? = some m ∧ m.Header = none ∧
            m.Body = "Missing " ++ s) ∧
    (∀ e, env.ReadFile (rawPath k) = .error e →
      buildConversation lib env (k :: rest) = .error (Panic.err e)) := by
  refine ⟨fun raw hraw => ?_, fun e he => buildConversation_cons_error lib env k rest e he⟩
  refine ⟨_, buildConversation_cons_ok lib env k rest raw hraw, by simp, ?_⟩
  intro i k2 e hi he
  refine ⟨placeholder k2, runeString k2, ?_, rfl, rfl⟩
  simp only [List.getElem?_map, hi, Option.map_some']
  rw [msgOrPlaceholder_error lib env k2 e he]

/-- C3 (witness): 101 has raw bytes and 102 has none; the conversation of `[101,102,103]` is
built, has three messages, and the second one is a placeholder. -/
theorem missing_recovered_after_first_witness :
    ∃ c, buildConversation refLib sampleEnv [101, 102, 103] = .ok c ∧ c.Msgs.length = 3 ∧
      ∃ (m : Msg) (s : String), c.Msgs[1]? = some m ∧ m.Header = none ∧
        m.Body = "Missing " ++ s := by
  obtain ⟨c, hc, hlen, hp⟩ :=
    (missing_recovered_after_first refLib sampleEnv 101 [102, 103]).1
      (strBytes sampleFirst) rfl
  exact ⟨c, hc, hlen, hp 1 102 "open raw/102.txt: no such file or directory" rfl (by decide)⟩

/-- C4: a conversation that the build step yields has `Count = len(Msgs)`, as many messages as
the sequence has identifiers, and at each position the result for the identifier at that
position: the placeholder when its raw bytes are missing, the message `getMsg` returns
otherwise. -/
theorem conversation_count_and_order (lib : Lib) (env : Env) (j : List Int) (c : Conversation)
    (h : buildConversation lib env j = .ok c) :
    c.Count = Int.ofNat c.Msgs.length ∧ c.Msgs.length = j.length ∧
    ∀ (i : Nat) (k : Int), j[i]? = some k →
      (∀ e, env.ReadFile (rawPath k) = .error e → c.Msgs[i]? = some (placeholder k)) ∧
      (∀ raw, env.ReadFile (rawPath k) = .ok raw →
        ∃ m, getMsg lib env k = .ok m ∧ c.Msgs[i]? = some m) := by
  obtain ⟨hmsgs, hcount⟩ := buildConversation_msgs lib env j c h
  refine ⟨hcount, by simp [hmsgs], fun i k hi => ⟨fun e he => ?_, fun raw hraw => ?_⟩⟩
  · simp only [hmsgs, List.getElem?_map, hi, Option.map_some']
    rw [msgOrPlaceholder_error lib env k e he]
  · obtain ⟨m, hm, hmp⟩ := msgOrPlaceholder_ok lib env k raw hraw
    exact ⟨m, hm, by simp only [hmsgs, List.getElem?_map, hi, Option.map_some', hmp]⟩

/-- C4 (witness): the conversation of `[101,102,103]` with 102 missing has count 3, three
messages, and the placeholder of 102 in second position. -/
theorem conversation_count_and_order_witness :
    ∃ c, buildConversation refLib sampleEnv [101, 102, 103] = .ok c ∧
      c.Count = 3 ∧ c.Msgs.length = 3 ∧ c.Msgs[1]? = some (placeholder 102) := by
  obtain ⟨c, hc⟩ := exists_ok_of_isSome (buildConversation refLib sampleEnv [101, 102, 103])
    (by decide)
  obtain ⟨hcount, hlen, hpos⟩ := conversation_count_and_order refLib sampleEnv _ c hc
  refine ⟨c, hc, ?_, hlen,
    (hpos 1 102 rfl).1 "open raw/102.txt: no such file or directory" (by decide)⟩
  rw [hcount, hlen]
  rfl

/-- C5 (counterexample): `List-*` and `Resent-*` are not pruned as families. Message 101 carries
`List-Owner` and message 104 carries `Resent-Bcc`; both names are still keys of the normalized
header map, with their raw values. -/
theorem list_owner_and_resent_bcc_kept :
    ((getMsg refLib sampleEnv 101).toOption.bind fun m =>
        m.Header.bind fun hdr => hdr.lookup "List-Owner") =
      some (HeaderValue.strings ⟨"owner@example.org", []⟩) ∧
    ((getMsg refLib sampleEnv 104).toOption.bind fun m =>
        m.Header.bind fun hdr => hdr.lookup "Resent-Bcc") =
      some (HeaderValue.strings ⟨"hidden@example.org", []⟩) ∧
    (∃ rest : String, "List-Owner" = "List-" ++ rest) ∧
    (∃ rest : String, "Resent-Bcc" = "Resent-" ++ rest) := by
  refine ⟨by decide, by decide, ⟨"Owner", by decide⟩, ⟨"Bcc", by decide⟩⟩

/-- C5 (amended): the header map of a message that `getMsg` normalizes has none of the 32 names
that lines 325-356 delete (written out below: six `List-` names and six `Resent-` names, not
every name of these families) and no key that is `X-` followed by anything, whatever the
library functions return and whatever the header values are. -/
theorem normalized_header_pruned (lib : Lib) (env : Env) (id : Int) (m : Msg) (hdr : HeaderMap)
    (h : getMsg lib env id = .ok m) (hh : m.Header = some hdr) (key : String) (hk : key ∈ hdr) :
    key ∉ ["Content-Disposition", "Content-Transfer-Encoding", "Content-Type", "Delivered-To",
      "Dkim-Signature", "In-Reply-To", "List-Archive", "List-Help", "List-Id", "List-Post",
      "List-Subscribe", "List-Unsubscribe", "Message-Id", "Mime-Version", "Precedence",
      "Received", "References", "Reply-To", "Resent-Cc", "Resent-Date", "Resent-From",
      "Resent-Message-Id", "Resent-To", "Return-Path", "Sender", "Thread-Index",
      "Thread-Topic", "User-Agent", "Resent-Sender", "Accept-Language", "Content-Language",
      "Errors-To"] ∧
    ∀ rest : String, key ≠ "X-" ++ rest := by
  obtain ⟨hd, hx⟩ := getMsg_keys_pruned lib env id m hdr h hh key hk
  refine ⟨fun hmem => hd hmem, fun rest heq => ?_⟩
  · rw [heq] at hx
    simp [HasPrefix] at hx

/-- C5 (witness): message 101 is parsed with the headers `Received`, `List-Id` and `X-Mailer`;
none of the three is a key of its normalized header map, while `Subject` is. -/
theorem normalized_header_pruned_witness :
    (sampleMsg.Header.lookup "Received").isSome = true ∧
    (sampleMsg.Header.lookup "List-Id").isSome = true ∧
    (sampleMsg.Header.lookup "X-Mailer").isSome = true ∧
    ∃ m hdr, getMsg refLib sampleEnv 101 = .ok m ∧ m.Header = some hdr ∧ "Subject" ∈ hdr ∧
      "Received" ∉ hdr ∧ "List-Id" ∉ hdr ∧ "X-Mailer" ∉ hdr := by
  refine ⟨by decide, by decide, by decide, ?_⟩
  obtain ⟨m, hm⟩ := exists_ok_of_isSome (getMsg refLib sampleEnv 101) (by decide)
  have hsome : ((getMsg refLib sampleEnv 101).toOption.bind fun m => m.Header).isSome = true := by
    decide
  have hsub : ((getMsg refLib sampleEnv 101).toOption.bind fun m => m.Header).all
      (fun hdr => decide ("Subject" ∈ hdr.keys)) = true := by decide
  rw [hm] at hsome hsub
  cases hH : m.Header with
  | none => simp [Except.toOption, hH] at hsome
  | some hdr =>
    simp only [Except.toOption, Option.some_bind, hH, Option.all_some, decide_eq_true_eq] at hsub
    refine ⟨m, hdr, hm, hH, AList.mem_keys.mpr hsub, fun hk => ?_, fun hk => ?_, fun hk => ?_⟩
    · exact (normalized_header_pruned refLib sampleEnv 101 m hdr hm hH "Received" hk).1
        (by decide)
    · exact (normalized_header_pruned refLib sampleEnv 101 m hdr hm hH "List-Id" hk).1
        (by decide)
    · exact (normalized_header_pruned refLib sampleEnv 101 m hdr hm hH "X-Mailer" hk).2
        "Mailer" (by decide)

/-- C6 (counterexample): message 101 has the header `To: nobody`, which is not an address list;
after normalization the header map still has `To`, with the raw string value. -/
theorem failed_address_keeps_raw :
    (refReadMessage (strBytes sampleFirst)).map (fun msg =>
        (msg.Header.lookup "To", refLib.AddressList (prunedHeader refLib msg) "To")) =
      some (some ⟨"nobody", []⟩, .error "mail: missing @ in addr-spec") ∧
    ((getMsg refLib sampleEnv 101).toOption.bind fun m =>
        m.Header.bind fun hdr => hdr.lookup "To") =
      some (HeaderValue.strings ⟨"nobody", []⟩) := by
  refine ⟨by decide, by decide⟩

/-- C6 (amended): for each of the names `To`, `From` and `CC`, and for a raw message that is
read and parsed, `getMsg` returns a message without error; if the address list parsing for that
name succeeds, the header map holds the structured list under that name; if it fails, the
entry under that name is as the copy loop left it: the raw string values when the parsed
header has that name, nothing when it has not. -/
theorem address_headers (lib : Lib) (env : Env) (id : Int) (raw : Bytes) (msg : MailMessage)
    (hread : env.ReadFile (rawPath id) = .ok raw) (hmsg : lib.ReadMessage raw = some msg)
    (a : String) (ha : a = "To" ∨ a = "From" ∨ a = "CC") :
    ∃ m hdr, getMsg lib env id = .ok m ∧ m.Header = some hdr ∧
      (∀ addrs, lib.AddressList (prunedHeader lib msg) a = .ok addrs →
        hdr.lookup a = some (HeaderValue.addrs addrs)) ∧
      (∀ e, lib.AddressList (prunedHeader lib msg) a = .error e →
        hdr.lookup a = (msg.Header.lookup a).map HeaderValue.strings) := by
  refine ⟨_, _, getMsg_parsed lib env id raw msg hread hmsg, rfl, fun addrs hok => ?_,
    fun e herr => ?_⟩
  · rw [lookup_addressHeaders lib _ _ a ha, hok]
  · have hD : a ≠ "Date" := by rcases ha with h | h | h <;> subst h <;> decide
    have hS : a ≠ "Subject" := by rcases ha with h | h | h <;> subst h <;> decide
    have hd : a ∉ denylist := by rcases ha with h | h | h <;> subst h <;> decide
    have hx : HasPrefix a "X-" = false := by rcases ha with h | h | h <;> subst h <;> decide
    rw [lookup_addressHeaders lib _ _ a ha, herr]
    simp only
    rw [copyHeaders_eq, copy_lookup _ (prunedHeader lib msg).nodupKeys _ a hD,
      ← prunedHeader_lookup lib msg a hS hd hx]
    show _ = Option.map HeaderValue.strings ((prunedHeader lib msg).entries.dlookup a)
    cases (prunedHeader lib msg).entries.dlookup a with
    | none => rfl
    | some v => rfl

/-- C6 (witness): in message 101, `From: Alice <alice@example.org>` becomes a structured list and
`To: nobody` keeps its raw value. -/
theorem address_headers_witness :
    ∃ m hdr, getMsg refLib sampleEnv 101 = .ok m ∧ m.Header = some hdr ∧
      hdr.lookup "From" = some (HeaderValue.addrs [⟨"Alice", "alice@example.org"⟩]) ∧
      hdr.lookup "To" = some (HeaderValue.strings ⟨"nobody", []⟩) := by
  have hread : sampleEnv.ReadFile (rawPath 101) = .ok (strBytes sampleFirst) := rfl
  have hmsg : refLib.ReadMessage (strBytes sampleFirst) = some sampleMsg :=
    eq_some_getD _ _ (by decide)
  obtain ⟨m, hdr, hm, hH, hfrom, -⟩ :=
    address_headers refLib sampleEnv 101 _ sampleMsg hread hmsg "From" (by decide)
  obtain ⟨m2, hdr2, hm2, hH2, -, hto⟩ :=
    address_headers refLib sampleEnv 101 _ sampleMsg hread hmsg "To" (by decide)
  rw [hm] at hm2
  cases hm2
  rw [hH] at hH2
  cases hH2
  refine ⟨m, hdr, hm, hH, hfrom _ (by decide), ?_⟩
  rw [hto "mail: missing @ in addr-spec" (by decide)]
  decide

/-- C7: for a raw message that is read and parsed with a `Date` header of first value `d`,
`getMsg` returns a message without error; its header map has no `Date` key; its `Date` field is
`t.Format(time.RFC3339)` when `time.Parse(time.RFC1123Z, d)` yields `t`, and `d` itself when the
parse fails. With the date functions as modelled, `"Mon, 02 Jan 2006 15:04:05 -0700"` gives
`"2006-01-02T15:04:05-07:00"` and `"garbage"` does not parse. -/
theorem date_normalized (lib : Lib) (env : Env) (id : Int) (raw : Bytes) (msg : MailMessage)
    (v : Values) (hread : env.ReadFile (rawPath id) = .ok raw)
    (hmsg : lib.ReadMessage raw = some msg) (hdate : msg.Header.lookup "Date" = some v) :
    (∃ m hdr, getMsg lib env id = .ok m ∧ m.Header = some hdr ∧ hdr.lookup "Date" = none ∧
      (∀ t, lib.timeParse RFC1123Z v.first = some t → m.Date = lib.timeFormat t RFC3339) ∧
      (lib.timeParse RFC1123Z v.first = none → m.Date = v.first)) ∧
    (refLib.timeParse RFC1123Z "Mon, 02 Jan 2006 15:04:05 -0700").map
        (fun t => refLib.timeFormat t RFC3339) = some "2006-01-02T15:04:05-07:00" ∧
    refLib.timeParse RFC1123Z "garbage" = none := by
  have hd : (copyHeaders (prunedHeader lib msg) "" ∅).1 = v.first := by
    rw [copyHeaders_eq]
    refine copy_date _ (prunedHeader lib msg).nodupKeys _ v ?_
    have h := prunedHeader_lookup lib msg "Date" (by decide) (by decide) (by decide)
    rw [hdate] at h
    exact h
  refine ⟨⟨_, _, getMsg_parsed lib env id raw msg hread hmsg, rfl, ?_, fun t ht => ?_,
    fun hn => ?_⟩, by decide, by decide⟩
  · rw [lookup_addressHeaders_ne lib _ _ "Date" (by decide) (by decide) (by decide),
      copyHeaders_eq, copy_lookup_date]
    rfl
  · simp only [hd, ht]
  · simp only [hd, hn]

/-- C7 (witness): message 101 has the date `"Mon, 02 Jan 2006 15:04:05 -0700"` and is returned
with the date `"2006-01-02T15:04:05-07:00"`; message 103 has the date `"garbage"` and keeps
it. -/
theorem date_normalized_witness :
    (∃ m, getMsg refLib sampleEnv 101 = .ok m ∧ m.Date = "2006-01-02T15:04:05-07:00") ∧
    (∃ m, getMsg refLib sampleEnv 103 = .ok m ∧ m.Date = "garbage") := by
  have h1 := (date_normalized refLib sampleEnv 101 (strBytes sampleFirst) sampleMsg
    ⟨"Mon, 02 Jan 2006 15:04:05 -0700", []⟩ rfl (eq_some_getD _ _ (by decide)) (by decide)).1
  have h3 := (date_normalized refLib sampleEnv 103 (strBytes sampleThird) sampleReply
    ⟨"garbage", []⟩ rfl (eq_some_getD _ _ (by decide)) (by decide)).1
  obtain ⟨m1, -, hm1, -, -, hp1, -⟩ := h1
  obtain ⟨m3, -, hm3, -, -, -, hn3⟩ := h3
  refine ⟨⟨m1, hm1, ?_⟩, ⟨m3, hm3, hn3 (by decide)⟩⟩
  rw [hp1 ⟨2006, 1, 2, 15, 4, 5, -25200⟩ (by decide)]
  decide

/-- C8: when the loop over the flattened sequences ends, `archive` has exactly one entry for
each conversation built, in build order; the entry has the conversation's `Id` and `Count` and
exactly one message, which has the header map, UID and date of the conversation's first message
and the empty body; and the conversations themselves are as the build step made them, the body
of their first message included. -/
theorem summary_entries (lib : Lib) (env : Env) (flat : List (List Int)) (run : Run)
    (h : buildArchive lib env flat = .ok run) :
    ∃ cs : List Conversation,
      List.Forall₂ (fun j c => buildConversation lib env j = .ok c) flat cs ∧
      run.written.map Prod.snd = cs ∧
      run.archive.length = flat.length ∧
      List.Forall₂ (fun c s => ∃ first rest, c.Msgs = first :: rest ∧ s.Id = c.Id ∧
        s.Count = c.Count ∧
        s.Msgs = [{ Header := first.Header, UID := first.UID, Date := first.Date, Body := "" }])
        cs run.archive := by
  obtain ⟨cs, ss, hcs, hwr, har, hss⟩ := mainLoop_ok lib env flat _ run h
  simp only [List.map_nil, List.nil_append] at hwr har
  subst har
  exact ⟨cs, hcs, hwr, by rw [← hss.length_eq, hcs.length_eq], hss⟩

/-- C8 (witness): the run over the two sequences of `[[101,[102,103]],200]` ends; the summary
has two entries, with counts 3 and 1 and one message each, of empty body, while the first
messages of the conversations keep their body. -/
theorem summary_entries_witness :
    ∃ run, buildArchive refLib sampleEnv (dumpl sampleThread) = .ok run ∧
      run.archive.length = 2 ∧
      run.archive.map (fun s => (s.Count, s.Msgs.map fun m => m.Body)) = [(3, [""]), (1, [""])] ∧
      run.written.map (fun pc => pc.2.Msgs.head?.map fun m => m.Body) =
        [some "first body", some "first body"] := by
  obtain ⟨run, hrun⟩ := exists_ok_of_isSome
    (buildArchive refLib sampleEnv (dumpl sampleThread)) (by decide)
  obtain ⟨cs, -, -, hlen, -⟩ := summary_entries refLib sampleEnv _ run hrun
  have h1 : (buildArchive refLib sampleEnv (dumpl sampleThread)).toOption.map (fun run =>
      run.archive.map (fun s => (s.Count, s.Msgs.map fun m => m.Body))) =
      some [(3, [""]), (1, [""])] := by decide
  have h2 : (buildArchive refLib sampleEnv (dumpl sampleThread)).toOption.map (fun run =>
      run.written.map (fun pc => pc.2.Msgs.head?.map fun m => m.Body)) =
      some [some "first body", some "first body"] := by decide
  rw [hrun] at h1 h2
  exact ⟨run, hrun, hlen, Option.some.inj h1, Option.some.inj h2⟩

/-- C9: the `Id` of a conversation is the hexadecimal text of the SHA-1 digest of the raw bytes
of its first identifier and depends on nothing else: two sequences, of any lengths and built
with any library functions and stores, whose first messages have the same raw bytes get the
same `Id`; and the `Id` has exactly 40 characters, each one of `0`-`9`, `a`-`f`. -/
theorem conversation_id_pure (lib1 lib2 : Lib) (env1 env2 : Env) (k1 k2 : Int)
    (rest1 rest2 : List Int) (raw : Bytes) (c1 c2 : Conversation)
    (h1 : env1.ReadFile (rawPath k1) = .ok raw) (h2 : env2.ReadFile (rawPath k2) = .ok raw)
    (hc1 : buildConversation lib1 env1 (k1 :: rest1) = .ok c1)
    (hc2 : buildConversation lib2 env2 (k2 :: rest2) = .ok c2) :
    c1.Id = c2.Id ∧ c1.Id = hexString (sha1Sum raw) ∧ c1.Id.length = 40 ∧
      ∀ ch ∈ c1.Id.data, ch ∈ "0123456789abcdef".data := by
  rw [buildConversation_cons_ok lib1 env1 k1 rest1 raw h1] at hc1
  rw [buildConversation_cons_ok lib2 env2 k2 rest2 raw h2] at hc2
  cases hc1
  cases hc2
  refine ⟨rfl, rfl, ?_, fun ch hch => hexString_chars _ ch hch⟩
  show (hexString (sha1Sum raw)).length = 40
  rw [hexString_length, sha1Sum_length]

set_option maxRecDepth 100000 in
/-- C9 (witness): messages 101 and 200 have the same raw bytes; the conversations of
`[101,102,103]` and of `[200]` get the same `Id`, the SHA-1 digest of these bytes in 40
hexadecimal digits. -/
theorem conversation_id_pure_witness :
    ∃ c1 c2, buildConversation refLib sampleEnv [101, 102, 103] = .ok c1 ∧
      buildConversation refLib sampleEnv [200] = .ok c2 ∧ c1.Id = c2.Id ∧ c1.Id.length = 40 ∧
      c1.Id = "f44bbab225962737c6046fb32c414bbceb831751" := by
  obtain ⟨c1, hc1⟩ := exists_ok_of_isSome (buildConversation refLib sampleEnv [101, 102, 103])
    (by decide)
  obtain ⟨c2, hc2⟩ := exists_ok_of_isSome (buildConversation refLib sampleEnv [200]) (by decide)
  obtain ⟨heq, hid, hlen, -⟩ := conversation_id_pure refLib refLib sampleEnv sampleEnv 101 200
    [102, 103] [] (strBytes sampleFirst) c1 c2 rfl rfl hc1 hc2
  refine ⟨c1, c2, hc1, hc2, heq, hlen, ?_⟩
  rw [hid]
  decide

/-- C10 (the code at the failing input): `dumpl` hands an empty sequence to the build loop for a
top-level element that is unrecognized or is an empty nested sequence; on an empty sequence the
loop does not end normally, whatever the library and the store: once the document is written,
the index expression `c.Msgs[0]` panics. With the reference store the run over `[101, "x"]`
aborts with that panic. -/
theorem empty_sequence_aborts :
    dumpl (.list [.other "string"]) = [[]] ∧ dumpl (.list [.list []]) = [[]] ∧
    (∀ (lib : Lib) (env : Env) (flat : List (List Int)),
      ¬ ∃ run, buildArchive lib env ([] :: flat) = .ok run) ∧
    buildArchive refLib sampleEnv (dumpl (.list [.uint32 101, .other "string"])) =
      .error Panic.indexOutOfRange := by
  refine ⟨by decide, by decide, ?_, by decide⟩
  rintro lib env flat ⟨run, hrun⟩
  unfold buildArchive mainLoop at hrun
  rw [buildConversation_nil] at hrun
  simp only at hrun
  split at hrun <;> cases hrun

end Imap2json
